import Mathlib

/-!
Verification of the devx-config store layer: a shallow embedding of the
Go sources in `store/store.go`, `store/secretsmgr.go` and their data model,
together with theorems settling the specification claims about them.

Modelling conventions:
* Go machine integers appear as `Int` (the retention period is an `int64`
  whose construction-time validation keeps it tiny, so no overflow arises).
* Go pointers of type `*T` appear as `Option T`; a `nil` dereference on a
  string field that the claims never exercise is modelled by `Option.getD ""`,
  while the one dereference that a claim does exercise (the results pointer
  in `SecretsManager.List`) is modelled precisely, with `none` standing for
  the run-time panic.
* Fallible calls return `Except GoError α`; the AWS clients are modelled as
  records of response functions, and every modelled store operation also
  returns the list of network calls it issued, so that claims about call
  counts and request contents can be stated directly.
-/

/-- The `store.Service` struct: `Stack, Stage, App string`. -/
structure Service where
  Stack : String
  Stage : String
  App : String
deriving DecidableEq

/-- `Service.Prefix()` from `store/store.go`: `fmt.Sprintf("/%s/%s/%s", s.Stage, s.Stack, s.App)`. -/
def Service.prefixPath (s : Service) : String :=
  "/" ++ s.Stage ++ "/" ++ s.Stack ++ "/" ++ s.App

/-- The `store.Parameter` struct. -/
structure Parameter where
  Service : Service
  Name : String
  Value : String
  IsSecret : Bool
deriving DecidableEq

/-- Go `error` values as the store layer distinguishes them:
`resourceExists` models `*types.ResourceExistsException` (the kind
`errors.As` is used to detect), `simple` models `errors.New`, and `wrap`
models `fmt.Errorf("...: %w", err)`. -/
inductive GoError where
  | resourceExists (message : String)
  | simple (message : String)
  | wrap (context : String) (inner : GoError)
deriving DecidableEq

/-- `errors.As(err, &resourceExistsException)`: walks the unwrap chain
looking for a `ResourceExistsException`. -/
def isResourceExistsErr : GoError → Bool
  | .resourceExists _ => true
  | .wrap _ inner => isResourceExistsErr inner
  | .simple _ => false

/-! ### The Go `strings.Replacer` used by `Parameter.String`

`strings.NewReplacer(prefix+"/", "", ".", "_", "/", "_")` scans the target
left to right; at each position the first argument pair whose pattern
matches is applied and the scan resumes after the matched segment
(non-overlapping).  The recursion is fuelled; fuel equal to the input
length suffices because every pattern used here is non-empty. -/

/-- First pattern of `pairs` that is a prefix of `s`, together with its
replacement and the remainder of `s` after the match. -/
def firstMatch (pairs : List (List Char × List Char)) (s : List Char) :
    Option (List Char × List Char) :=
  match pairs with
  | [] => none
  | (pat, rep) :: rest =>
    if pat.isPrefixOf s then some (rep, s.drop pat.length) else firstMatch rest s

/-- One left-to-right replacement scan, as `strings.Replacer.Replace` performs it. -/
def replaceGo (pairs : List (List Char × List Char)) : Nat → List Char → List Char
  | 0, s => s
  | _ + 1, [] => []
  | fuel + 1, c :: rest =>
    match firstMatch pairs (c :: rest) with
    | some (rep, rest2) => rep ++ replaceGo pairs fuel rest2
    | none => c :: replaceGo pairs fuel rest

/-- The `clean` closure inside `Parameter.String`:
`strings.NewReplacer(prefix+"/", "", ".", "_", "/", "_").Replace(s)`. -/
def clean (s pref : String) : String :=
  ⟨replaceGo [((pref ++ "/").data, []), (['.'], ['_']), (['/'], ['_'])]
    s.data.length s.data⟩

/-- `Parameter.String()` from `store/store.go`:
`fmt.Sprintf("%s=%s", clean(c.Name, c.Service.Prefix()), c.Value)`. -/
def Parameter.String (c : Parameter) : String :=
  clean c.Name (Service.prefixPath c.Service) ++ "=" ++ c.Value

/-! ### `getVersionIdHash`: `base64.StdEncoding.EncodeToString(md5.Sum(value))`

The Go code feeds the UTF-8 bytes of `value` through `crypto/md5` and
standard base64.  Both library algorithms are embedded below over `Nat`
bytes (`% 256`) and 32-bit words (`% 2^32`). -/

/-- UTF-8 encoding of one character, as Go strings store text. -/
def utf8Bytes (c : Char) : List Nat :=
  let n := c.toNat
  if n < 128 then [n]
  else if n < 2048 then [192 ||| (n >>> 6), 128 ||| (n &&& 63)]
  else if n < 65536 then
    [224 ||| (n >>> 12), 128 ||| ((n >>> 6) &&& 63), 128 ||| (n &&& 63)]
  else
    [240 ||| (n >>> 18), 128 ||| ((n >>> 12) &&& 63),
     128 ||| ((n >>> 6) &&& 63), 128 ||| (n &&& 63)]

/-- The bytes of a string (`io.WriteString` writes the UTF-8 encoding). -/
def strBytes (s : String) : List Nat := s.data.flatMap utf8Bytes

/-- Truncation to a 32-bit word. -/
def w32 (n : Nat) : Nat := n % 4294967296

/-- 32-bit left rotation. -/
def rotl32 (x s : Nat) : Nat := w32 ((x <<< s) ||| (x >>> (32 - s)))

/-- The 64 MD5 sine-derived constants. -/
def md5K : List Nat :=
  [3614090360, 3905402710, 606105819, 3250441966, 4118548399, 1200080426,
   2821735955, 4249261313, 1770035416, 2336552879, 4294925233, 2304563134,
   1804603682, 4254626195, 2792965006, 1236535329, 4129170786, 3225465664,
   643717713, 3921069994, 3593408605, 38016083, 3634488961, 3889429448,
   568446438, 3275163606, 4107603335, 1163531501, 2850285829, 4243563512,
   1735328473, 2368359562, 4294588738, 2272392833, 1839030562, 4259657740,
   2763975236, 1272893353, 4139469664, 3200236656, 681279174, 3936430074,
   3572445317, 76029189, 3654602809, 3873151461, 530742520, 3299628645,
   4096336452, 1126891415, 2878612391, 4237533241, 1700485571, 2399980690,
   4293915773, 2240044497, 1873313359, 4264355552, 2734768916, 1309151649,
   4149444226, 3174756917, 718787259, 3951481745]

/-- The 64 MD5 per-round shift amounts. -/
def md5S : List Nat :=
  [7, 12, 17, 22, 7, 12, 17, 22, 7, 12, 17, 22, 7, 12, 17, 22,
   5, 9, 14, 20, 5, 9, 14, 20, 5, 9, 14, 20, 5, 9, 14, 20,
   4, 11, 16, 23, 4, 11, 16, 23, 4, 11, 16, 23, 4, 11, 16, 23,
   6, 10, 15, 21, 6, 10, 15, 21, 6, 10, 15, 21, 6, 10, 15, 21]

/-- Little-endian byte expansion (`count` bytes). -/
def leBytes (n count : Nat) : List Nat :=
  (List.range count).map fun i => (n >>> (8 * i)) % 256

/-- MD5 padding: append `0x80`, zero-fill to 56 mod 64, then the
64-bit little-endian bit length. -/
def md5pad (msg : List Nat) : List Nat :=
  let zeros := (56 + 64 - (msg.length + 1) % 64) % 64
  msg ++ [128] ++ List.replicate zeros 0 ++ leBytes (msg.length * 8) 8

/-- The little-endian 32-bit word at index `j` of a 64-byte block. -/
def blockWord (block : List Nat) (j : Nat) : Nat :=
  block.getD (4 * j) 0 + (block.getD (4 * j + 1) 0 <<< 8) +
    (block.getD (4 * j + 2) 0 <<< 16) + (block.getD (4 * j + 3) 0 <<< 24)

/-- One of the 64 MD5 steps, acting on the state `(a, b, c, d)`. -/
def md5Step (block : List Nat) (st : Nat × Nat × Nat × Nat) (i : Nat) :
    Nat × Nat × Nat × Nat :=
  let (a, b, c, d) := st
  let f :=
    if i < 16 then (b &&& c) ||| ((b ^^^ 4294967295) &&& d)
    else if i < 32 then (d &&& b) ||| ((d ^^^ 4294967295) &&& c)
    else if i < 48 then b ^^^ c ^^^ d
    else c ^^^ (b ||| (d ^^^ 4294967295))
  let g :=
    if i < 16 then i
    else if i < 32 then (5 * i + 1) % 16
    else if i < 48 then (3 * i + 5) % 16
    else (7 * i) % 16
  let sum := w32 (a + f + md5K.getD i 0 + blockWord block g)
  let a2 := w32 (b + rotl32 sum (md5S.getD i 0))
  (d, a2, b, c)

/-- Process one 64-byte block, adding the step result into the chaining state. -/
def md5Block (st : Nat × Nat × Nat × Nat) (block : List Nat) :
    Nat × Nat × Nat × Nat :=
  let (a0, b0, c0, d0) := st
  let (a, b, c, d) := (List.range 64).foldl (md5Step block) (a0, b0, c0, d0)
  (w32 (a0 + a), w32 (b0 + b), w32 (c0 + c), w32 (d0 + d))

/-- Split into 64-byte chunks (fuelled; fuel bounds the number of chunks). -/
def chunks64 : Nat → List Nat → List (List Nat)
  | 0, _ => []
  | _ + 1, [] => []
  | fuel + 1, l => l.take 64 :: chunks64 fuel (l.drop 64)

/-- The 16-byte MD5 digest of a byte sequence. -/
def md5Digest (msg : List Nat) : List Nat :=
  let padded := md5pad msg
  let (a, b, c, d) :=
    (chunks64 padded.length padded).foldl md5Block
      (1732584193, 4023233417, 2562383102, 271733878)
  leBytes a 4 ++ leBytes b 4 ++ leBytes c 4 ++ leBytes d 4

/-- The standard base64 alphabet. -/
def b64Alphabet : List Char :=
  "ABCDEFGHIJKLMNOPQRSTUVWXYZabcdefghijklmnopqrstuvwxyz0123456789+/".data

/-- The base64 character for a 6-bit value. -/
def b64char (n : Nat) : Char := b64Alphabet.getD n 'A'

/-- Standard base64 encoding with `=` padding (fuelled on group count). -/
def b64encode : Nat → List Nat → List Char
  | 0, _ => []
  | _ + 1, [] => []
  | _ + 1, [b1] =>
    [b64char (b1 >>> 2), b64char ((b1 &&& 3) <<< 4), '=', '=']
  | _ + 1, [b1, b2] =>
    [b64char (b1 >>> 2), b64char (((b1 &&& 3) <<< 4) ||| (b2 >>> 4)),
     b64char ((b2 &&& 15) <<< 2), '=']
  | fuel + 1, b1 :: b2 :: b3 :: rest =>
    b64char (b1 >>> 2) :: b64char (((b1 &&& 3) <<< 4) ||| (b2 >>> 4)) ::
      b64char (((b2 &&& 15) <<< 2) ||| (b3 >>> 6)) :: b64char (b3 &&& 63) ::
      b64encode fuel rest

/-- `getVersionIdHash` from `store/secretsmgr.go`: base64 of the MD5 of the value. -/
def getVersionIdHash (value : String) : String :=
  let rawMd5 := md5Digest (strBytes value)
  ⟨b64encode rawMd5.length rawMd5⟩

/-! ### The Secrets Manager client interface

Request and response shapes from the AWS SDK, restricted to the fields the
store layer reads or writes.  Response payload fields that only feed log
messages are dropped (`log` output never changes store behaviour). -/

/-- `secretsmanager.GetSecretValueInput`. -/
structure GetSecretValueInput where
  SecretId : Option String
deriving DecidableEq

/-- `secretsmanager.GetSecretValueOutput` (the fields the store reads). -/
structure GetSecretValueOutput where
  Name : Option String
  SecretString : Option String
deriving DecidableEq

/-- `secretsmanager.CreateSecretInput`; tags are `(key, value)` pairs. -/
structure CreateSecretInput where
  ClientRequestToken : Option String
  Name : Option String
  SecretString : Option String
  Tags : List (String × String)
deriving DecidableEq

/-- `secretsmanager.PutSecretValueInput`. -/
structure PutSecretValueInput where
  ClientRequestToken : Option String
  SecretId : Option String
  SecretString : Option String
deriving DecidableEq

/-- `secretsmanager.DeleteSecretInput`. -/
structure DeleteSecretInput where
  RecoveryWindowInDays : Option Int
  SecretId : Option String
  ForceDeleteWithoutRecovery : Option Bool
deriving DecidableEq

/-- `types.SecretListEntry` (the fields the store reads). -/
structure SecretListEntry where
  ARN : Option String
  Name : Option String
deriving DecidableEq

/-- A single `types.Filter` value. -/
structure SmFilter where
  key : String
  values : List String
deriving DecidableEq

/-- `types.SortOrderType`. -/
inductive SortOrderType where
  | asc
  | desc
deriving DecidableEq

/-- `secretsmanager.ListSecretsInput` (the fields the store sets). -/
structure ListSecretsInput where
  Filters : List SmFilter
  NextToken : Option String
  SortOrder : SortOrderType
deriving DecidableEq

/-- `secretsmanager.ListSecretsOutput` (the fields the store reads). -/
structure ListSecretsOutput where
  NextToken : Option String
  SecretList : List SecretListEntry
deriving DecidableEq

/-- One network call issued by the Secrets Manager store, with its request. -/
inductive Call where
  | getSecretValue (req : GetSecretValueInput)
  | createSecret (req : CreateSecretInput)
  | putSecretValue (req : PutSecretValueInput)
  | deleteSecret (req : DeleteSecretInput)
  | listSecrets (req : ListSecretsInput)
deriving DecidableEq

/-- The Secrets Manager client as the store sees it: a response for every
request.  Create/put/delete payloads are only logged, so they are `Unit`. -/
structure ClientBehavior where
  getSecretValue : GetSecretValueInput → Except GoError GetSecretValueOutput
  createSecret : CreateSecretInput → Except GoError Unit
  putSecretValue : PutSecretValueInput → Except GoError Unit
  deleteSecret : DeleteSecretInput → Except GoError Unit
  listSecrets : ListSecretsInput → Except GoError ListSecretsOutput

/-- The `store.SecretsManager` struct (logger and timeout carry no store
semantics and are omitted; the claims about timeouts are out of scope here). -/
structure SecretsManager where
  client : ClientBehavior
  SecretRetentionDays : Int

/-- `NewSecretsManagerStore` from `store/secretsmgr.go`: rejects a non-zero
retention outside 7..30 days, otherwise builds the store. -/
def NewSecretsManagerStore (client : ClientBehavior) (secretsRetentionDays : Int) :
    Except GoError SecretsManager :=
  if secretsRetentionDays ≠ 0 ∧ (secretsRetentionDays < 7 ∨ secretsRetentionDays > 30) then
    .error (.simple "aws only supports post-deletion retention periods of between 7 and 30 days. Use 0 to force it to delete immediately")
  else
    .ok { client := client, SecretRetentionDays := secretsRetentionDays }

/-- `SecretsManager.Get`: fetches `{prefix}/{name}`, treating a nil
`SecretString` as the empty string. -/
def SecretsManager.Get (s : SecretsManager) (service : Service) (name : String) :
    Except GoError Parameter × List Call :=
  let secretNameWithPath := Service.prefixPath service ++ "/" ++ name
  let req : GetSecretValueInput := { SecretId := some secretNameWithPath }
  match s.client.getSecretValue req with
  | .error e => (.error e, [Call.getSecretValue req])
  | .ok response =>
    let safeValue := response.SecretString.getD ""
    (.ok { Name := response.Name.getD "", Value := safeValue,
           IsSecret := true, Service := service },
     [Call.getSecretValue req])

/-- `SecretsManager.fetchSecretValue`: second-stage fetch of one listed entry
by ARN; a nil `SecretString` reads as the empty string. -/
def SecretsManager.fetchSecretValue (s : SecretsManager) (entry : SecretListEntry) :
    Except GoError String × List Call :=
  let req : GetSecretValueInput := { SecretId := entry.ARN }
  match s.client.getSecretValue req with
  | .ok response => (.ok (response.SecretString.getD ""), [Call.getSecretValue req])
  | .error e => (.error e, [Call.getSecretValue req])

/-- The per-entry loop body inside `nextPageOfResults`: fetch each entry's
value in order, stopping at the first failure. -/
def SecretsManager.fetchValues (s : SecretsManager) (service : Service) :
    List SecretListEntry → Except GoError (List Parameter) × List Call
  | [] => (.ok [], [])
  | entry :: rest =>
    match SecretsManager.fetchSecretValue s entry with
    | (.error e, t) => (.error e, t)
    | (.ok secretValue, t) =>
      match SecretsManager.fetchValues s service rest with
      | (.error e, t2) => (.error e, t ++ t2)
      | (.ok params, t2) =>
        (.ok ({ Service := service, Name := entry.Name.getD "",
                Value := secretValue, IsSecret := true } :: params), t ++ t2)

/-- The `ListSecretsInput` that `nextPageOfResults` builds: a name filter on
the service prefix, descending sort, and the given continuation token. -/
def listReq (service : Service) (nextToken : Option String) : ListSecretsInput :=
  { Filters := [{ key := "name", values := [Service.prefixPath service] }],
    NextToken := nextToken,
    SortOrder := SortOrderType.desc }

/-- `SecretsManager.nextPageOfResults`: fetch one metadata page, fetch every
entry's value, and recurse while a continuation token is present.  The Go
recursion has no bound of its own, so it is fuelled here; one unit of fuel
per page suffices and every theorem supplies enough.  The first component is
the returned `*[]Parameter` (`none` is Go's nil pointer), the second the
returned `error`. -/
def SecretsManager.nextPageOfResults (s : SecretsManager) :
    Nat → Service → Option String → List Parameter →
    (Option (List Parameter) × Option GoError) × List Call
  | 0, _, _, _ => ((none, some (GoError.simple "model: page recursion fuel exhausted")), [])
  | fuel + 1, service, nextToken, currentResults =>
    let req := listReq service nextToken
    match s.client.listSecrets req with
    | .error e => ((none, some e), [Call.listSecrets req])
    | .ok response =>
      match SecretsManager.fetchValues s service response.SecretList with
      | (.error e, t) => ((none, some e), Call.listSecrets req :: t)
      | (.ok results, t) =>
        let updatedCompleteResults := currentResults ++ results
        match response.NextToken with
        | some tk =>
          let ((r, err), t2) :=
            SecretsManager.nextPageOfResults s fuel service (some tk) updatedCompleteResults
          ((r, err), Call.listSecrets req :: (t ++ t2))
        | none => ((some updatedCompleteResults, none), Call.listSecrets req :: t)

/-- The `CreateSecretInput` built by `createNewSecret`: idempotency token,
path-qualified name, value, and the identity triple as tags. -/
def createReqFor (service : Service) (secretNameWithPath value hashedIdValue : String) :
    CreateSecretInput :=
  { ClientRequestToken := some hashedIdValue,
    Name := some secretNameWithPath,
    SecretString := some value,
    Tags := [("App", service.App), ("Stack", service.Stack), ("Stage", service.Stage)] }

/-- `SecretsManager.createNewSecret`: one `CreateSecret` call, error returned as is. -/
def SecretsManager.createNewSecret (s : SecretsManager) (service : Service)
    (secretNameWithPath value hashedIdValue : String) : Option GoError × List Call :=
  let req := createReqFor service secretNameWithPath value hashedIdValue
  match s.client.createSecret req with
  | .ok _ => (none, [Call.createSecret req])
  | .error e => (some e, [Call.createSecret req])

/-- The `PutSecretValueInput` built by `updateExistingSecret`. -/
def putReqFor (secretNameWithPath value hashedIdValue : String) : PutSecretValueInput :=
  { ClientRequestToken := some hashedIdValue,
    SecretId := some secretNameWithPath,
    SecretString := some value }

/-- `SecretsManager.updateExistingSecret`: one `PutSecretValue` call. -/
def SecretsManager.updateExistingSecret (s : SecretsManager)
    (secretNameWithPath value hashedIdValue : String) : Option GoError × List Call :=
  let req := putReqFor secretNameWithPath value hashedIdValue
  match s.client.putSecretValue req with
  | .ok _ => (none, [Call.putSecretValue req])
  | .error e => (some e, [Call.putSecretValue req])

/-- `SecretsManager.Set`: refuse non-secret writes, otherwise attempt a
create and, exactly when the failure is the already-exists kind, fall back
to a version-append update with the same token. -/
def SecretsManager.Set (s : SecretsManager) (service : Service)
    (name value : String) (isSecret : Bool) : Option GoError × List Call :=
  if !isSecret then
    (some (GoError.simple "you cannot create something that is not a secret in the Secrets store. You should use SSM instead"), [])
  else
    let secretNameWithPath := Service.prefixPath service ++ "/" ++ name
    let hashedIdValue := getVersionIdHash value
    match SecretsManager.createNewSecret s service secretNameWithPath value hashedIdValue with
    | (none, t) => (none, t)
    | (some e, t) =>
      if isResourceExistsErr e then
        let (err2, t2) := SecretsManager.updateExistingSecret s secretNameWithPath value hashedIdValue
        (err2, t ++ t2)
      else
        (some e, t)

/-- The `DeleteSecretInput` built by `Delete`: recovery window when the
configured retention is positive, otherwise force delete.  Note the Go code
addresses the secret by the bare `name`, without the service prefix. -/
def deleteReqFor (retentionDays : Int) (name : String) : DeleteSecretInput :=
  if retentionDays > 0 then
    { RecoveryWindowInDays := some retentionDays,
      SecretId := some name,
      ForceDeleteWithoutRecovery := none }
  else
    { RecoveryWindowInDays := none,
      SecretId := some name,
      ForceDeleteWithoutRecovery := some true }

/-- `SecretsManager.Delete`: one `DeleteSecret` call, error returned as is. -/
def SecretsManager.Delete (s : SecretsManager) (service : Service) (name : String) :
    Option GoError × List Call :=
  let req := deleteReqFor s.SecretRetentionDays name
  match s.client.deleteSecret req with
  | .ok _ => (none, [Call.deleteSecret req])
  | .error e => (some e, [Call.deleteSecret req])

/-- `SecretsManager.List`: starts the page recursion and then dereferences
the returned results pointer (`return *resultsPtr, err`).  When
`nextPageOfResults` reports an error it returns a nil pointer, so the
dereference panics: the outer `none` models that panic. -/
def SecretsManager.List (s : SecretsManager) (fuel : Nat) (service : Service) :
    Option (List Parameter × Option GoError) × List Call :=
  match SecretsManager.nextPageOfResults s fuel service none [] with
  | ((some results, err), trace) => (some (results, err), trace)
  | ((none, _), trace) => (none, trace)

/-! ### The SSM (parameter store) backend from `store/store.go` -/

/-- `types.ParameterType`: plain text or encrypted. -/
inductive SsmParameterType where
  | string
  | secureString
deriving DecidableEq, BEq

/-- `types.Parameter` (the fields the store reads); `ptype` is the Go
field `Type`, renamed because `Type` is reserved in Lean. -/
structure SsmParameter where
  Name : Option String
  Value : Option String
  ptype : SsmParameterType
deriving DecidableEq

/-- `ssm.PutParameterInput` (the fields `SSM.Set` writes). -/
structure PutParameterInput where
  Name : Option String
  Value : Option String
  ptype : SsmParameterType
deriving DecidableEq

/-- `asConfigItem` from `store/store.go`. -/
def asConfigItem (service : Service) (param : SsmParameter) : Parameter :=
  { Name := param.Name.getD "",
    Value := param.Value.getD "",
    IsSecret := param.ptype == SsmParameterType.secureString,
    Service := service }

/-- `asConfigItems` from `store/store.go`. -/
def asConfigItems (service : Service) (params : List SsmParameter) : List Parameter :=
  params.map (asConfigItem service)

/-- The parameter store's durable state: entries of name, value and type. -/
def SsmWorld : Type := List (String × String × SsmParameterType)

/-- Lookup of an entry by name. -/
def lookupParam : SsmWorld → String → Option (String × SsmParameterType)
  | [], _ => none
  | (n, v, t) :: rest, key => if n = key then some (v, t) else lookupParam rest key

/-- Modelled from the spec: the AWS SSM `PutParameter` operation is not part
of this repository; per the spec, "every `Set` call is upsert-semantics at
the backend level already", so it unconditionally overwrites the named entry
and never fails because of prior existence. -/
def putParameter (world : SsmWorld) (req : PutParameterInput) :
    SsmWorld × Option GoError :=
  let n := req.Name.getD ""
  ((n, req.Value.getD "", req.ptype) :: world.filter (fun e => e.1 ≠ n), none)

/-- `SSM.Set` from `store/store.go`: one `PutParameter` call at the
path-qualified name, typed `SecureString` exactly when `isSecret`.  The
issued request is returned alongside the result. -/
def SSM.Set (world : SsmWorld) (service : Service) (name value : String)
    (isSecret : Bool) : (SsmWorld × Option GoError) × PutParameterInput :=
  let paramType :=
    if isSecret then SsmParameterType.secureString else SsmParameterType.string
  let req : PutParameterInput :=
    { Name := some (Service.prefixPath service ++ "/" ++ name),
      Value := some value, ptype := paramType }
  (putParameter world req, req)

/-- The loop of `SSM.List`: the paginator is modelled as the finite sequence
of page outcomes it yields; the loop accumulates converted items and stops
at the first page error, returning what it has so far together with the
wrapped error (`fmt.Errorf("unable to get parameters: %w", err)`). -/
def SSM.listLoop (service : Service) (items : List Parameter) :
    List (Except GoError (List SsmParameter)) → List Parameter × Option GoError
  | [] => (items, none)
  | .error e :: _ => (items, some (.wrap "unable to get parameters" e))
  | .ok ps :: rest => SSM.listLoop service (items ++ asConfigItems service ps) rest

/-- `SSM.List` from `store/store.go`. -/
def SSM.List (service : Service)
    (pages : List (Except GoError (List SsmParameter))) :
    List Parameter × Option GoError :=
  SSM.listLoop service [] pages

/-! ### Spec-side definitions used to state the claims -/

/-- The character replacement the spec describes: every `.` and `/` becomes `_`. -/
def replUnderscore (ch : Char) : Char :=
  if ch = '.' ∨ ch = '/' then '_' else ch

/-- The key transformation exactly as the spec words it: remove a literal
`prefix + "/"` occurrence from the front of `name` (only the first
occurrence, only if positioned at the start), then replace every `.` and `/`
with `_`.  Stated for comparison with the source's `clean`. -/
def cleanKeyClaimed (name pref : String) : String :=
  let pat := (pref ++ "/").data
  let stripped := if pat.isPrefixOf name.data then name.data.drop pat.length else name.data
  ⟨stripped.map replUnderscore⟩

/-- Left-to-right removal of every non-overlapping occurrence of `pat`
(fuelled; fuel at least the input length suffices for non-empty `pat`). -/
def removeOcc (pat : List Char) : Nat → List Char → List Char
  | 0, s => s
  | _ + 1, [] => []
  | fuel + 1, c :: rest =>
    if pat.isPrefixOf (c :: rest) then removeOcc pat fuel ((c :: rest).drop pat.length)
    else c :: removeOcc pat fuel rest

/-- The amended key transformation: remove every non-overlapping occurrence
of `prefix + "/"` wherever it occurs in the name (left-to-right scan, not
only at the start), then replace every remaining `.` and `/` with `_`. -/
def cleanKeyAmended (name pref : String) : String :=
  ⟨(removeOcc (pref ++ "/").data name.data.length name.data).map replUnderscore⟩

/-- The service used by the repository's own tests. -/
def svcTest : Service := { Stack := "my-stack", Stage := "TEST", App := "my-app" }

/-- A client on which every page-metadata fetch fails. -/
def failPageClient : ClientBehavior where
  getSecretValue := fun _ => .error (.simple "unused")
  createSecret := fun _ => .ok ()
  putSecretValue := fun _ => .ok ()
  deleteSecret := fun _ => .ok ()
  listSecrets := fun _ => .error (.simple "network error")

/-- A client on which creation reports the already-exists conflict and
version-append succeeds. -/
def conflictClient : ClientBehavior where
  getSecretValue := fun _ => .error (.simple "unused")
  createSecret := fun _ => .error (.resourceExists "this already exists")
  putSecretValue := fun _ => .ok ()
  deleteSecret := fun _ => .ok ()
  listSecrets := fun _ => .error (.simple "unused")

/-- A client on which every operation succeeds with empty payloads. -/
def okClient : ClientBehavior where
  getSecretValue := fun _ => .ok { Name := some "", SecretString := some "" }
  createSecret := fun _ => .ok ()
  putSecretValue := fun _ => .ok ()
  deleteSecret := fun _ => .ok ()
  listSecrets := fun _ => .ok { NextToken := none, SecretList := [] }

/-- How `Delete` runs on any client: it issues exactly the one request
`deleteReqFor` builds and mirrors the client's outcome. -/
theorem delete_run (c : ClientBehavior) (d : Int) (service : Service) (name : String) :
    SecretsManager.Delete { client := c, SecretRetentionDays := d } service name
      = ((match c.deleteSecret (deleteReqFor d name) with
          | .ok _ => none
          | .error e => some e),
         [Call.deleteSecret (deleteReqFor d name)]) := by
  unfold SecretsManager.Delete
  cases h : c.deleteSecret (deleteReqFor d name) <;> simp [h]

/-- Claim C8: `Set` on the Secret Backend with `isSecret = false` always
fails with the validation error and performs zero network calls. -/
theorem C8_set_nonsecret_rejected (c : ClientBehavior) (d : Int) (service : Service)
    (name value : String) :
    SecretsManager.Set { client := c, SecretRetentionDays := d } service name value false
      = (some (GoError.simple "you cannot create something that is not a secret in the Secrets store. You should use SSM instead"), []) :=
  rfl

/-- Claim C6: the delete request built with retention `0` carries only the
force-delete flag; with any positive retention `d` it carries only the
recovery window `d`; for every retention exactly one of the two fields is
set; and `Delete` issues exactly that request once. -/
theorem C6_delete_request_shape (c : ClientBehavior) (d : Int) (service : Service)
    (name : String) :
    (deleteReqFor 0 name).ForceDeleteWithoutRecovery = some true
      ∧ (deleteReqFor 0 name).RecoveryWindowInDays = none
      ∧ (0 < d →
          (deleteReqFor d name).RecoveryWindowInDays = some d
            ∧ (deleteReqFor d name).ForceDeleteWithoutRecovery = none)
      ∧ ((deleteReqFor d name).RecoveryWindowInDays.isSome = true
            ∧ (deleteReqFor d name).ForceDeleteWithoutRecovery = none
          ∨ (deleteReqFor d name).RecoveryWindowInDays = none
            ∧ (deleteReqFor d name).ForceDeleteWithoutRecovery = some true)
      ∧ SecretsManager.Delete { client := c, SecretRetentionDays := d } service name
          = ((match c.deleteSecret (deleteReqFor d name) with
              | .ok _ => none
              | .error e => some e),
             [Call.deleteSecret (deleteReqFor d name)]) := by
  refine ⟨by rfl, by rfl, ?_, ?_, delete_run c d service name⟩
  · intro hd
    simp [deleteReqFor, hd, show d > 0 from hd]
  · by_cases hd : d > 0
    · left
      simp [deleteReqFor, hd]
    · right
      simp [deleteReqFor, hd]

/-- Witness for C6 at retention 7 and retention 0. -/
theorem C6_delete_request_shape_witness :
    (deleteReqFor 7 "some-secret-name").RecoveryWindowInDays = some 7
      ∧ (deleteReqFor 7 "some-secret-name").ForceDeleteWithoutRecovery = none
      ∧ (deleteReqFor 0 "some-secret-name").ForceDeleteWithoutRecovery = some true
      ∧ (deleteReqFor 0 "some-secret-name").RecoveryWindowInDays = none := by
  have h7 := C6_delete_request_shape okClient 7 svcTest "some-secret-name"
  have h0 := C6_delete_request_shape okClient 0 svcTest "some-secret-name"
  exact ⟨(h7.2.2.1 (by norm_num)).1, (h7.2.2.1 (by norm_num)).2, h0.1, h0.2.1⟩

/-- Claim C9: constructing the Secret Backend succeeds exactly for retention
`0` or `7 ≤ d ≤ 30` (so `5` fails at construction), while `Delete` itself
applies no retention-range validation: for every retention it issues the
delete request and mirrors the client's outcome. -/
theorem C9_retention_validated_at_construction (cl c : ClientBehavior) (d : Int)
    (service : Service) (name : String) :
    ((NewSecretsManagerStore cl d).isOk = true ↔ d = 0 ∨ 7 ≤ d ∧ d ≤ 30)
      ∧ (NewSecretsManagerStore cl 5).isOk = false
      ∧ SecretsManager.Delete { client := c, SecretRetentionDays := d } service name
          = ((match c.deleteSecret (deleteReqFor d name) with
              | .ok _ => none
              | .error e => some e),
             [Call.deleteSecret (deleteReqFor d name)]) := by
  refine ⟨?_, by rfl, delete_run c d service name⟩
  unfold NewSecretsManagerStore
  by_cases h : d ≠ 0 ∧ (d < 7 ∨ d > 30)
  · rw [if_pos h]
    simp only [Except.isOk, Except.toBool]
    constructor
    · intro hk
      cases hk
    · intro hk
      exfalso
      rcases h with ⟨hne, hr⟩
      rcases hk with h0 | ⟨h7, h30⟩ <;> omega
  · rw [if_neg h]
    simp only [Except.isOk, Except.toBool, true_iff]
    omega

/-- The single replacement scan of the source equals removal of every
`pat` occurrence followed by per-character replacement, for non-empty `pat`:
each scan position either matches `pat` (both sides drop it) or advances by
one character (kept, then `.`/`/` rewritten to `_`). -/
theorem replaceGo_eq_removeOcc (pat : List Char) (hpat : pat ≠ []) :
    ∀ (fuel : Nat) (s : List Char), s.length ≤ fuel →
      replaceGo [(pat, []), (['.'], ['_']), (['/'], ['_'])] fuel s
        = (removeOcc pat fuel s).map replUnderscore := by
  intro fuel
  induction fuel with
  | zero =>
    intro s hs
    have : s = [] := List.eq_nil_of_length_eq_zero (Nat.le_zero.mp hs)
    subst this
    rfl
  | succ fuel ih =>
    intro s hs
    cases s with
    | nil => rfl
    | cons c rest =>
      have hlen : pat.length ≥ 1 := by
        cases pat with
        | nil => exact absurd rfl hpat
        | cons p ps => simp
      cases hp : pat.isPrefixOf (c :: rest) with
      | true =>
        have hfm : firstMatch [(pat, []), (['.'], ['_']), (['/'], ['_'])] (c :: rest)
            = some ([], (c :: rest).drop pat.length) := by
          simp [firstMatch, hp]
        have hdroplen : ((c :: rest).drop pat.length).length ≤ fuel := by
          have hs' : rest.length + 1 ≤ fuel + 1 := by simpa using hs
          simp only [List.length_drop, List.length_cons]
          omega
        simp only [replaceGo, hfm, removeOcc, hp, if_true, List.nil_append]
        exact ih _ hdroplen
      | false =>
        have hrest : rest.length ≤ fuel := by
          simp only [List.length_cons] at hs
          omega
        by_cases hc : c = '.'
        · subst hc
          have hfm : firstMatch [(pat, []), (['.'], ['_']), (['/'], ['_'])] ('.' :: rest)
              = some (['_'], rest) := by
            simp [firstMatch, hp, List.isPrefixOf]
          simp only [replaceGo, hfm, removeOcc, hp, List.singleton_append, List.map_cons]
          rw [ih _ hrest]
          simp [replUnderscore]
        · by_cases hc2 : c = '/'
          · subst hc2
            have hfm : firstMatch [(pat, []), (['.'], ['_']), (['/'], ['_'])] ('/' :: rest)
                = some (['_'], rest) := by
              simp [firstMatch, hp, List.isPrefixOf]
            simp only [replaceGo, hfm, removeOcc, hp, List.singleton_append, List.map_cons]
            rw [ih _ hrest]
            simp [replUnderscore]
          · have hfm : firstMatch [(pat, []), (['.'], ['_']), (['/'], ['_'])] (c :: rest)
                = none := by
              simp [firstMatch, hp, List.isPrefixOf, Ne.symm hc, Ne.symm hc2]
            simp only [replaceGo, hfm, removeOcc, hp, List.map_cons]
            rw [ih _ hrest]
            simp [replUnderscore, hc, hc2]

/-- Claim C3 (amended): the display-form key is computed by removing every
non-overlapping occurrence of `prefix + "/"` wherever it occurs in the name
(left-to-right scan, not only at the start and not only the first
occurrence), then replacing every remaining `.` and `/` with `_`; the Item
renders as that key, `=`, then the value. -/
theorem C3_display_form_amended (p : Parameter) :
    Parameter.String p
      = cleanKeyAmended p.Name (Service.prefixPath p.Service) ++ "=" ++ p.Value := by
  unfold Parameter.String cleanKeyAmended clean
  have hpat : (Service.prefixPath p.Service ++ "/").data ≠ [] := by
    rw [String.data_append]
    simp
  rw [replaceGo_eq_removeOcc _ hpat _ _ le_rfl]

/-- The concrete parameter refuting the as-stated C3: the name contains
`prefix + "/"` in the middle, not at the start. -/
def pEx3 : Parameter :=
  { Service := { Stack := "s", Stage := "TEST", App := "a" },
    Name := "x/TEST/s/a/y", Value := "v", IsSecret := true }

/-- Claim C3 counterexample: for `Name = "x/TEST/s/a/y"` under prefix
`"/TEST/s/a"`, the code renders `"xy=v"` (the mid-string occurrence is
removed) while the claim's front-only transformation gives
`"x_TEST_s_a_y=v"`. -/
theorem C3_counterexample :
    Parameter.String pEx3
      ≠ cleanKeyClaimed pEx3.Name (Service.prefixPath pEx3.Service) ++ "=" ++ pEx3.Value := by
  decide

/-- Claim C4 (code bug): `Get` and `Set` address the backing store by the
prefixed path `{prefix}/{name}`, but `Delete` sends the bare submitted
`name` — at the repository's own test input the delete request's
`SecretId` differs from the prefixed path the tests expect. -/
theorem C4_addressing (c : ClientBehavior) (d : Int) (service : Service)
    (name value : String) :
    (SecretsManager.Get { client := c, SecretRetentionDays := d } service name).2
        = [Call.getSecretValue { SecretId := some (Service.prefixPath service ++ "/" ++ name) }]
      ∧ (SecretsManager.Set { client := c, SecretRetentionDays := d } service name value true).2.head?
          = some (Call.createSecret (createReqFor service
              (Service.prefixPath service ++ "/" ++ name) value (getVersionIdHash value)))
      ∧ (SecretsManager.Delete { client := c, SecretRetentionDays := d } service name).2
          = [Call.deleteSecret (deleteReqFor d name)]
      ∧ (deleteReqFor d name).SecretId = some name
      ∧ (deleteReqFor 0 "some-secret-name").SecretId
          ≠ some (Service.prefixPath svcTest ++ "/" ++ "some-secret-name") := by
  refine ⟨?_, ?_, ?_, ?_, by decide⟩
  · unfold SecretsManager.Get
    cases h : c.getSecretValue { SecretId := some (Service.prefixPath service ++ "/" ++ name) } <;>
      simp [h]
  · unfold SecretsManager.Set SecretsManager.createNewSecret
    cases h : c.createSecret (createReqFor service
        (Service.prefixPath service ++ "/" ++ name) value (getVersionIdHash value)) with
    | ok u => simp [h]
    | error e =>
      by_cases hre : isResourceExistsErr e
      · cases h2 : SecretsManager.updateExistingSecret
            { client := c, SecretRetentionDays := d }
            (Service.prefixPath service ++ "/" ++ name) value (getVersionIdHash value) with
        | mk err2 t2 => simp [h, h2, hre]
      · simp [h, hre]
  · rw [delete_run]
  · unfold deleteReqFor
    by_cases hd : d > 0 <;> simp [hd]

/-- The store under test whose every page-metadata fetch fails. -/
def smFail : SecretsManager := { client := failPageClient, SecretRetentionDays := 0 }

/-- Claim C2 (code bug): when the first page fetch fails,
`nextPageOfResults` correctly hands `List` a nil results pointer together
with the error, but `List` then dereferences that nil pointer
(`return *resultsPtr, err`) — the outer `none` models the resulting panic
in place of the error return the claim describes. -/
theorem C2_list_crashes_on_page_error :
    SecretsManager.nextPageOfResults smFail 3 svcTest none []
        = ((none, some (GoError.simple "network error")),
           [Call.listSecrets (listReq svcTest none)])
      ∧ SecretsManager.List smFail 3 svcTest
          = (none, [Call.listSecrets (listReq svcTest none)]) :=
  ⟨rfl, rfl⟩

/-- Claim C7: the Parameter Backend `Set` writes the one entry at the
prefixed path, tagged encrypted exactly when `isSecret`, and — with the
backing service's spec-modelled upsert semantics — succeeds and overwrites
regardless of the prior state of the store. -/
theorem C7_ssm_set_upsert (world : SsmWorld) (service : Service)
    (name value : String) (isSecret : Bool) :
    (SSM.Set world service name value isSecret).1.2 = none
      ∧ (SSM.Set world service name value isSecret).2.Name
          = some (Service.prefixPath service ++ "/" ++ name)
      ∧ (SSM.Set world service name value isSecret).2.ptype
          = (if isSecret then SsmParameterType.secureString else SsmParameterType.string)
      ∧ lookupParam (SSM.Set world service name value isSecret).1.1
            (Service.prefixPath service ++ "/" ++ name)
          = some (value,
              if isSecret then SsmParameterType.secureString else SsmParameterType.string) := by
  refine ⟨rfl, rfl, rfl, ?_⟩
  simp [SSM.Set, putParameter, lookupParam]

/-- Prefixes of successful pages accumulate their converted items in order. -/
theorem listLoop_ok_pages (service : Service) (good : List (List SsmParameter)) :
    ∀ (items : List Parameter) (rest : List (Except GoError (List SsmParameter))),
      SSM.listLoop service items (good.map Except.ok ++ rest)
        = SSM.listLoop service (items ++ good.flatMap (asConfigItems service)) rest := by
  induction good with
  | nil =>
    intro items rest
    simp
  | cons g gs ih =>
    intro items rest
    simp only [List.map_cons, List.cons_append, SSM.listLoop, List.append_eq]
    rw [ih]
    simp [List.append_assoc]

/-- Claim C10: when page `p` of a Parameter Backend `List` scan fails, the
call returns the items accumulated from the earlier pages together with the
wrapped error. -/
theorem C10_ssm_list_page_error (service : Service) (good : List (List SsmParameter))
    (e : GoError) (rest : List (Except GoError (List SsmParameter))) :
    SSM.List service (good.map Except.ok ++ Except.error e :: rest)
      = (good.flatMap (asConfigItems service),
         some (GoError.wrap "unable to get parameters" e)) := by
  unfold SSM.List
  rw [listLoop_ok_pages]
  simp [SSM.listLoop]

/-- Claim C1: a secret write performs exactly one create attempt; exactly
when that create fails with the distinguishable already-exists kind it
performs exactly one version-append attempt carrying the same idempotency
token and returns the update's outcome; any other create failure is
returned unmodified with no update attempted. -/
theorem C1_set_create_then_update (c : ClientBehavior) (d : Int) (service : Service)
    (name value path tok : String) (createReq : CreateSecretInput)
    (putReq : PutSecretValueInput)
    (hpath : path = Service.prefixPath service ++ "/" ++ name)
    (htok : tok = getVersionIdHash value)
    (hcreq : createReq = createReqFor service path value tok)
    (hpreq : putReq = putReqFor path value tok) :
    createReq.ClientRequestToken = some tok
      ∧ putReq.ClientRequestToken = some tok
      ∧ (c.createSecret createReq = .ok () →
          SecretsManager.Set { client := c, SecretRetentionDays := d } service name value true
            = (none, [Call.createSecret createReq]))
      ∧ ∀ e, c.createSecret createReq = .error e →
          (isResourceExistsErr e = true →
            SecretsManager.Set { client := c, SecretRetentionDays := d } service name value true
              = ((match c.putSecretValue putReq with
                  | .ok _ => none
                  | .error e2 => some e2),
                 [Call.createSecret createReq, Call.putSecretValue putReq]))
          ∧ (isResourceExistsErr e = false →
            SecretsManager.Set { client := c, SecretRetentionDays := d } service name value true
              = (some e, [Call.createSecret createReq])) := by
  subst hpath htok hcreq hpreq
  refine ⟨rfl, rfl, ?_, ?_⟩
  · intro hok
    unfold SecretsManager.Set SecretsManager.createNewSecret
    simp [hok]
  · intro e herr
    constructor
    · intro hre
      unfold SecretsManager.Set SecretsManager.createNewSecret SecretsManager.updateExistingSecret
      cases hput : c.putSecretValue (putReqFor
          (Service.prefixPath service ++ "/" ++ name) value (getVersionIdHash value)) <;>
        simp [herr, hre, hput]
    · intro hre
      unfold SecretsManager.Set SecretsManager.createNewSecret
      simp [herr, hre]

/-- Witness for C1: on a client that reports the already-exists conflict on
create and accepts the version-append, `Set` issues exactly the create then
the update (both carrying the content-hash token) and succeeds. -/
theorem C1_set_create_then_update_witness :
    SecretsManager.Set { client := conflictClient, SecretRetentionDays := 0 } svcTest
        "some-new-secret" "some-secret-value" true
      = (none,
         [Call.createSecret (createReqFor svcTest
            (Service.prefixPath svcTest ++ "/" ++ "some-new-secret") "some-secret-value"
            (getVersionIdHash "some-secret-value")),
          Call.putSecretValue (putReqFor
            (Service.prefixPath svcTest ++ "/" ++ "some-new-secret") "some-secret-value"
            (getVersionIdHash "some-secret-value"))]) := by
  have h := ((C1_set_create_then_update conflictClient 0 svcTest "some-new-secret"
      "some-secret-value" _ _ _ _ rfl rfl rfl rfl).2.2.2
      (GoError.resourceExists "this already exists") rfl).1 rfl
  simpa using h

/-! ### A paginated mock client for the Secret Backend `List` claims -/

/-- The continuation token this file's mock pagination uses for page `i`. -/
def pageToken (i : Nat) : String := ⟨List.replicate i 'x'⟩

/-- The page index a continuation token addresses. -/
def tokIdx : Option String → Nat
  | none => 0
  | some t => t.data.length

/-- A client that serves `entryPages` as successive metadata pages (tokens
index the pages) and answers every value fetch successfully through `v`. -/
def pagedClient (entryPages : List (List SecretListEntry))
    (v : GetSecretValueInput → GetSecretValueOutput) : ClientBehavior where
  getSecretValue := fun req => .ok (v req)
  createSecret := fun _ => .ok ()
  putSecretValue := fun _ => .ok ()
  deleteSecret := fun _ => .ok ()
  listSecrets := fun req =>
    match entryPages.drop (tokIdx req.NextToken) with
    | [] => .error (.simple "model: no such page")
    | es :: rest =>
      .ok { NextToken :=
              match rest with
              | [] => none
              | _ :: _ => some (pageToken (tokIdx req.NextToken + 1)),
            SecretList := es }

/-- The item `nextPageOfResults` builds for one listed entry whose value
fetch is answered by `v`. -/
def entryParam (service : Service) (v : GetSecretValueInput → GetSecretValueOutput)
    (e : SecretListEntry) : Parameter :=
  { Service := service, Name := e.Name.getD "",
    Value := (v { SecretId := e.ARN }).SecretString.getD "", IsSecret := true }

/-- The value-fetch calls one page of entries produces, in entry order. -/
def pageCalls (es : List SecretListEntry) : List Call :=
  es.map fun e => Call.getSecretValue { SecretId := e.ARN }

/-- The full call sequence of a successful paginated scan starting at `tok`. -/
def scanTrace (service : Service) : Option String → List (List SecretListEntry) → List Call
  | _, [] => []
  | tok, es :: rest =>
    (Call.listSecrets (listReq service tok) :: pageCalls es)
      ++ scanTrace service (some (pageToken (tokIdx tok + 1))) rest

/-- Number of page-metadata fetches in a trace. -/
def countListCalls (trace : List Call) : Nat :=
  trace.countP fun call =>
    match call with
    | Call.listSecrets _ => true
    | _ => false

/-- Number of per-entry value fetches in a trace. -/
def countGetCalls (trace : List Call) : Nat :=
  trace.countP fun call =>
    match call with
    | Call.getSecretValue _ => true
    | _ => false

/-- On an always-succeeding client, the per-entry loop converts every entry
in order and issues one value fetch per entry. -/
theorem fetchValues_pagedClient (entryPages : List (List SecretListEntry))
    (v : GetSecretValueInput → GetSecretValueOutput) (service : Service)
    (es : List SecretListEntry) :
    SecretsManager.fetchValues
        { client := pagedClient entryPages v, SecretRetentionDays := 0 } service es
      = (.ok (es.map (entryParam service v)), pageCalls es) := by
  induction es with
  | nil => rfl
  | cons e rest ih =>
    have hget : (pagedClient entryPages v).getSecretValue { SecretId := e.ARN }
        = .ok (v { SecretId := e.ARN }) := rfl
    simp only [SecretsManager.fetchValues, SecretsManager.fetchSecretValue, hget, ih]
    simp [pageCalls, entryParam]

/-- A successful scan over the remaining pages: starting from any token
addressing the suffix `rest` of the page list, `nextPageOfResults` returns
the accumulator followed by all remaining entries in page order, with the
full scan trace. -/
theorem nextPage_paged_ok (entryPages : List (List SecretListEntry))
    (v : GetSecretValueInput → GetSecretValueOutput) (service : Service) :
    ∀ (rest : List (List SecretListEntry)) (tok : Option String)
      (acc : List Parameter) (fuel : Nat),
      entryPages.drop (tokIdx tok) = rest → rest ≠ [] → rest.length ≤ fuel →
      SecretsManager.nextPageOfResults
          { client := pagedClient entryPages v, SecretRetentionDays := 0 }
          fuel service tok acc
        = ((some (acc ++ rest.flatMap fun es => es.map (entryParam service v)), none),
           scanTrace service tok rest) := by
  intro rest
  induction rest with
  | nil =>
    intro tok acc fuel hdrop hne hfuel
    exact absurd rfl hne
  | cons es rest2 ih =>
    intro tok acc fuel hdrop hne hfuel
    cases fuel with
    | zero => simp at hfuel
    | succ fuel =>
      cases rest2 with
      | nil =>
        have hls : (pagedClient entryPages v).listSecrets (listReq service tok)
            = .ok { NextToken := none, SecretList := es } := by
          show (match entryPages.drop (tokIdx tok) with
                | [] => (Except.error (GoError.simple "model: no such page") :
                    Except GoError ListSecretsOutput)
                | es :: rest =>
                  Except.ok { NextToken :=
                                match rest with
                                | [] => none
                                | _ :: _ => some (pageToken (tokIdx tok + 1)),
                              SecretList := es })
              = Except.ok { NextToken := none, SecretList := es }
          rw [hdrop]
        simp only [SecretsManager.nextPageOfResults, hls,
          fetchValues_pagedClient entryPages v service es]
        simp [scanTrace]
      | cons es2 rest3 =>
        have hls : (pagedClient entryPages v).listSecrets (listReq service tok)
            = .ok { NextToken := some (pageToken (tokIdx tok + 1)), SecretList := es } := by
          show (match entryPages.drop (tokIdx tok) with
                | [] => (Except.error (GoError.simple "model: no such page") :
                    Except GoError ListSecretsOutput)
                | es :: rest =>
                  Except.ok { NextToken :=
                                match rest with
                                | [] => none
                                | _ :: _ => some (pageToken (tokIdx tok + 1)),
                              SecretList := es })
              = Except.ok { NextToken := some (pageToken (tokIdx tok + 1)), SecretList := es }
          rw [hdrop]
        have htok2 : tokIdx (some (pageToken (tokIdx tok + 1))) = tokIdx tok + 1 := by
          simp [tokIdx, pageToken]
        have hdrop2 : entryPages.drop (tokIdx tok + 1) = es2 :: rest3 := by
          have h1 := List.drop_drop 1 (tokIdx tok) entryPages
          rw [hdrop] at h1
          simpa using h1.symm
        have hfuel2 : (es2 :: rest3).length ≤ fuel := by
          simp only [List.length_cons] at hfuel ⊢
          omega
        have hrec := ih (some (pageToken (tokIdx tok + 1)))
          (acc ++ es.map (entryParam service v)) fuel
          (by rw [htok2]; exact hdrop2) (by simp) hfuel2
        simp only [SecretsManager.nextPageOfResults, hls,
          fetchValues_pagedClient entryPages v service es, hrec]
        simp [scanTrace, List.append_assoc]

/-- Page and entry counts of a successful scan trace: one page fetch per
page and one value fetch per entry. -/
theorem scanTrace_counts (service : Service) :
    ∀ (pages : List (List SecretListEntry)) (tok : Option String),
      countListCalls (scanTrace service tok pages) = pages.length
        ∧ countGetCalls (scanTrace service tok pages) = (pages.map List.length).sum := by
  intro pages
  induction pages with
  | nil =>
    intro tok
    simp [scanTrace, countListCalls, countGetCalls]
  | cons es rest ih =>
    intro tok
    have h := ih (some (pageToken (tokIdx tok + 1)))
    refine ⟨?_, ?_⟩
    · simp only [scanTrace, countListCalls] at h ⊢
      simp only [List.countP_append, List.cons_append, List.countP_cons, pageCalls,
        List.countP_map, Function.comp, h.1]
      simp
    · simp only [scanTrace, countGetCalls] at h ⊢
      simp only [List.countP_append, List.cons_append, List.countP_cons, pageCalls,
        List.countP_map, Function.comp, h.2]
      simp [List.countP_true]

/-- Claim C5: across `N` non-empty pages served by a succeeding client, the
Secret Backend `List` performs exactly `N` page fetches and exactly one
value fetch per listed entry, and returns the entries concatenated in page
order, every returned item carrying `IsSecret = true` and the requested
service. -/
theorem C5_list_pagination (service : Service) (p0 : List SecretListEntry)
    (ps : List (List SecretListEntry))
    (v : GetSecretValueInput → GetSecretValueOutput) :
    SecretsManager.List { client := pagedClient (p0 :: ps) v, SecretRetentionDays := 0 }
        (p0 :: ps).length service
      = (some ((p0 :: ps).flatMap fun es => es.map (entryParam service v), none),
         scanTrace service none (p0 :: ps))
      ∧ countListCalls (scanTrace service none (p0 :: ps)) = (p0 :: ps).length
      ∧ countGetCalls (scanTrace service none (p0 :: ps))
          = ((p0 :: ps).map List.length).sum
      ∧ ∀ q ∈ (p0 :: ps).flatMap fun es => es.map (entryParam service v),
          q.IsSecret = true ∧ q.Service = service := by
  have hscan := nextPage_paged_ok (p0 :: ps) v service (p0 :: ps) none [] (p0 :: ps).length
    rfl (by simp) le_rfl
  have hcounts := scanTrace_counts service (p0 :: ps) none
  refine ⟨?_, hcounts.1, hcounts.2, ?_⟩
  · unfold SecretsManager.List
    rw [hscan]
    simp
  · intro q hq
    simp only [List.mem_flatMap, List.mem_map] at hq
    obtain ⟨es, _, e, _, rfl⟩ := hq
    exact ⟨rfl, rfl⟩

/-- Witness for C9 at retentions 0 and 5: retention 0 constructs, 5 does not. -/
theorem C9_retention_validated_at_construction_witness :
    (NewSecretsManagerStore okClient 0).isOk = true
      ∧ (NewSecretsManagerStore okClient 5).isOk = false := by
  have h := C9_retention_validated_at_construction okClient okClient 0 svcTest "n"
  exact ⟨h.1.mpr (Or.inl rfl), h.2.1⟩
